import Mathlib

/-!
Verification of the valutatrade_hub core (models.py, usecases.py).

Shallow embedding conventions:
* Python `str` values (currency codes, rate-cache keys) are modelled as
  `List Char`; Python's `str.upper()` becomes `List.map Char.toUpper`
  (both uppercase only ASCII letters in the range handled here).
* Python `float` money amounts and rates are modelled as `ℚ`.
* Python exceptions (`ValueError`) are modelled with `Except String`;
  the boolean "insufficient funds" results stay `Bool`.
* A `Portfolio` (dict `currency_code -> Wallet`) is an association list
  from the stored (uppercased) code to the wallet balance; lookup and
  in-place update both act on the first matching key, which coincides
  with dict semantics because `add_currency` never inserts a duplicate.
* Mutating operations return the portfolio that results from the call,
  including the partial mutations that precede a raised exception.
* Timestamps (`datetime.now()`, `updated_at`) are rationals counting
  seconds; `timedelta(minutes=5)` is `300`.
-/

abbrev Str := List Char

/-- Python's `str.upper()` on the embedded strings. -/
def upper (s : Str) : Str := s.map Char.toUpper

/-- String literal `'USD'` from the source. -/
def cUSD : Str := ['U', 'S', 'D']

def cEUR : Str := ['E', 'U', 'R']

def cGBP : Str := ['G', 'B', 'P']

def cJPY : Str := ['J', 'P', 'Y']

def cRUB : Str := ['R', 'U', 'B']

def cBTC : Str := ['B', 'T', 'C']

def cETH : Str := ['E', 'T', 'H']

def cXYZ : Str := ['X', 'Y', 'Z']

/-- First-occurrence association-list lookup: `key in dict` / `dict.get(key)`. -/
def lookup {α : Type} : List (Str × α) → Str → Option α
  | [], _ => none
  | (k, v) :: rest, code => if k = code then some v else lookup rest code

/-- In-place update of the first entry with the given key (mutation of the
`Wallet` object stored in the dict). -/
def setBal : List (Str × ℚ) → Str → ℚ → List (Str × ℚ)
  | [], _, _ => []
  | (k, b) :: rest, code, v =>
    if k = code then (k, v) :: rest else (k, b) :: setBal rest code v

/-- `true` exactly on `Except.ok` results. -/
def isSuccess {ε α : Type} : Except ε α → Bool
  | Except.ok _ => true
  | Except.error _ => false

/-- A portfolio: the wallets dict of `Portfolio` (models.py), as stored
code ↦ balance. -/
abbrev Portfolio := List (Str × ℚ)

namespace Wallet

/-- Construction `Wallet(currency_code, balance)` (models.py 131-161): the
`currency_code` setter rejects codes whose length is not 3 (the emptiness
check is subsumed) and stores the code uppercased; the `balance` setter
rejects negative balances. -/
def new (currency_code : Str) (balance : ℚ) : Except String (Str × ℚ) :=
  if currency_code.length ≠ 3 then
    Except.error "Код валюты должен состоять из 3 символов"
  else if balance < 0 then
    Except.error "Баланс не может быть отрицательным"
  else
    Except.ok (upper currency_code, balance)

/-- `Wallet.deposit` (models.py 163-170), acting on the wallet balance.  The
assignment `self.balance += amount` goes through the balance setter, which
raises when the new value is negative. -/
def deposit (balance amount : ℚ) : Except String ℚ :=
  if amount ≤ 0 then Except.error "Сумма пополнения должна быть положительной"
  else if balance + amount < 0 then
    Except.error "Баланс не может быть отрицательным"
  else Except.ok (balance + amount)

/-- `Wallet.withdraw` (models.py 172-182): `false` when the balance is too
small, otherwise `true` with the reduced balance; the assignment
`self.balance -= amount` goes through the balance setter, which raises
when the new value is negative. -/
def withdraw (balance amount : ℚ) : Except String (Bool × ℚ) :=
  if amount ≤ 0 then Except.error "Сумма снятия должна быть положительной"
  else if amount > balance then Except.ok (false, balance)
  else if balance - amount < 0 then
    Except.error "Баланс не может быть отрицательным"
  else Except.ok (true, balance - amount)

end Wallet

namespace Portfolio

/-- `Portfolio.get_wallet` (models.py 244-247). -/
def get_wallet (p : Portfolio) (currency_code : Str) : Option ℚ :=
  lookup p (upper currency_code)

/-- `Portfolio.add_currency` (models.py 231-242). -/
def add_currency (p : Portfolio) (currency_code : Str) (initial_balance : ℚ) :
    Except String Portfolio :=
  if currency_code = [] then
    Except.error "Код валюты должен быть непустой строкой"
  else
    let code := upper currency_code
    if (lookup p code).isSome then
      Except.error "Кошелёк с такой валютой уже существует"
    else
      match Wallet.new code initial_balance with
      | Except.error e => Except.error e
      | Except.ok kv => Except.ok (p ++ [kv])

/-- Continuation of `buy_currency` after the target wallet has been obtained
or lazily created (models.py 305-319): fetch the USD wallet, check funds,
withdraw the cost and deposit the bought amount.  Wallet objects are
re-read from the list at each use, which reproduces Python's aliasing when
the target wallet is the USD wallet itself. -/
def buy_currency_rest (p : Portfolio) (tkey : Str) (amount total_cost : ℚ) :
    Except String Bool × Portfolio :=
  match get_wallet p cUSD with
  | none => (Except.error "USD кошелёк не найден для совершения покупки", p)
  | some usd_balance =>
    if usd_balance < total_cost then (Except.ok false, p)
    else
      match Wallet.withdraw usd_balance total_cost with
      | Except.error e => (Except.error e, p)
      | Except.ok (false, _) => (Except.ok false, p)
      | Except.ok (true, usd_balance2) =>
        let p2 := setBal p cUSD usd_balance2
        match lookup p2 tkey with
        | none => (Except.error "Кошелёк не найден", p2)
        | some target_balance =>
          match Wallet.deposit target_balance amount with
          | Except.error e => (Except.error e, p2)
          | Except.ok target_balance2 =>
            (Except.ok true, setBal p2 tkey target_balance2)

/-- `Portfolio.buy_currency` (models.py 286-319).  Returns the raised
exception or the boolean result, together with the portfolio as left by
the call (the target wallet is created before the USD wallet is checked,
so failed calls can leave a new empty wallet behind). -/
def buy_currency (p : Portfolio) (target_currency : Str) (amount price : ℚ) :
    Except String Bool × Portfolio :=
  if amount ≤ 0 then (Except.error "Сумма покупки должна быть положительной", p)
  else if price ≤ 0 then (Except.error "Цена должна быть положительной", p)
  else
    let total_cost := amount * price
    match get_wallet p target_currency with
    | some _ => buy_currency_rest p (upper target_currency) amount total_cost
    | none =>
      match add_currency p target_currency 0 with
      | Except.error e => (Except.error e, p)
      | Except.ok p1 => buy_currency_rest p1 (upper target_currency) amount total_cost

/-- Continuation of `sell_currency` after the source wallet is known to
exist and the USD wallet has been obtained or lazily created
(models.py 345-354). -/
def sell_currency_rest (p : Portfolio) (skey : Str) (amount total_income : ℚ) :
    Except String Bool × Portfolio :=
  match lookup p skey with
  | none => (Except.error "Кошелёк не найден", p)
  | some source_balance =>
    if source_balance < amount then (Except.ok false, p)
    else
      match Wallet.withdraw source_balance amount with
      | Except.error e => (Except.error e, p)
      | Except.ok (false, _) => (Except.ok false, p)
      | Except.ok (true, source_balance2) =>
        let p2 := setBal p skey source_balance2
        match get_wallet p2 cUSD with
        | none => (Except.error "Кошелёк не найден", p2)
        | some usd_balance =>
          match Wallet.deposit usd_balance total_income with
          | Except.error e => (Except.error e, p2)
          | Except.ok usd_balance2 => (Except.ok true, setBal p2 cUSD usd_balance2)

/-- `Portfolio.sell_currency` (models.py 321-354).  The USD wallet is
created lazily before the balance check, so an insufficient-funds result
can still add an empty USD wallet. -/
def sell_currency (p : Portfolio) (source_currency : Str) (amount price : ℚ) :
    Except String Bool × Portfolio :=
  if amount ≤ 0 then (Except.error "Сумма продажи должна быть положительной", p)
  else if price ≤ 0 then (Except.error "Цена должна быть положительной", p)
  else
    let total_income := amount * price
    match get_wallet p source_currency with
    | none => (Except.error "Кошелёк не найден", p)
    | some _ =>
      match get_wallet p cUSD with
      | some _ => sell_currency_rest p (upper source_currency) amount total_income
      | none =>
        match add_currency p cUSD 0 with
        | Except.error e => (Except.error e, p)
        | Except.ok p1 => sell_currency_rest p1 (upper source_currency) amount total_income

/-- Fixed demonstration rates of `get_total_value` (models.py 252-260). -/
def exchange_rates : List (Str × ℚ) :=
  [(cUSD, 1), (cEUR, 0.85), (cGBP, 0.73), (cJPY, 110), (cRUB, 80),
   (cBTC, 100000), (cETH, 3000)]

/-- Round-half-to-even on the integers, the rounding used by Python's
built-in `round`. -/
def roundHalfEven (q : ℚ) : ℤ :=
  let f := ⌊q⌋
  if q - f < 1 / 2 then f
  else if q - f > 1 / 2 then f + 1
  else if f % 2 = 0 then f else f + 1

/-- Python's `round(x, 2)` on the rational model. -/
def round2 (q : ℚ) : ℚ := (roundHalfEven (q * 100) : ℚ) / 100

/-- Body of the `get_total_value` wallet loop (models.py 267-282): wallets
with no rate are skipped (a warning is printed, which the model drops),
matching-base wallets are added verbatim, the rest converted through USD. -/
def totalLoop (base_currency : Str) : List (Str × ℚ) → ℚ → ℚ
  | [], acc => acc
  | (currency_code, balance) :: rest, acc =>
    match lookup exchange_rates currency_code with
    | none => totalLoop base_currency rest acc
    | some rate =>
      if currency_code = base_currency then totalLoop base_currency rest (acc + balance)
      else
        let value_in_usd := balance * rate
        let value_in_base :=
          if base_currency ≠ cUSD then
            value_in_usd / (lookup exchange_rates base_currency).getD 0
          else value_in_usd
        totalLoop base_currency rest (acc + value_in_base)

/-- `Portfolio.get_total_value` (models.py 249-284). -/
def get_total_value (p : Portfolio) (base_currency : Str) : Except String ℚ :=
  if (lookup exchange_rates base_currency).isNone then
    Except.error "Неизвестная базовая валюта"
  else
    Except.ok (round2 (totalLoop base_currency p 0))

end Portfolio

/-- Conversion of one known-rate wallet into the base currency, written
directly from the spec wording of get_total_value for comparison with the
loop of the source. -/
def convert_one (base_currency currency_code : Str) (balance : ℚ) : ℚ :=
  if currency_code = base_currency then balance
  else
    let value_in_usd := balance * (lookup Portfolio.exchange_rates currency_code).getD 0
    if base_currency ≠ cUSD then
      value_in_usd / (lookup Portfolio.exchange_rates base_currency).getD 0
    else value_in_usd

/-- Sum of the wallets with a known rate, converted into the base. -/
def walletsValue (p : Portfolio) (base_currency : Str) : ℚ :=
  ((p.filter fun kv => (lookup Portfolio.exchange_rates kv.1).isSome).map
    fun kv => convert_one base_currency kv.1 kv.2).sum

/-- One cached quote of `rates.json`: `{rate, updated_at}`. -/
structure RateEntry where
  rate : ℚ
  updated_at : ℚ

/-- Key `f"{from_currency}_{to_currency}"` of the rate cache. -/
def pairKey (from_currency to_currency : Str) : Str :=
  from_currency ++ '_' :: to_currency

/-- A stored quote for the given key exists and is younger than 5 minutes. -/
def freshQuote (rates : List (Str × RateEntry)) (now : ℚ) (key : Str) : Prop :=
  ∃ e, lookup rates key = some e ∧ now - e.updated_at < 300

namespace CurrencyService

/-- Static fallback table of `get_exchange_rate` (usecases.py 192-200). -/
def stub_rates : List (Str × ℚ) :=
  [(cUSD, 1), (cEUR, 0.85), (cGBP, 0.73), (cJPY, 110), (cRUB, 80),
   (cBTC, 100000), (cETH, 3000)]

/-- Fallback step of `get_exchange_rate` (usecases.py 191-205). -/
def stubStep (from_currency to_currency : Str) : Except String ℚ :=
  match lookup stub_rates from_currency, lookup stub_rates to_currency with
  | some from_value, some to_value => Except.ok (to_value / from_value)
  | _, _ => Except.error "Курс недоступен"

/-- Reverse-quote step of `get_exchange_rate` (usecases.py 183-189): a fresh
reverse quote yields its reciprocal, otherwise the static fallback. -/
def reverseStep (rates : List (Str × RateEntry)) (now : ℚ)
    (from_currency to_currency : Str) : Except String ℚ :=
  match lookup rates (pairKey to_currency from_currency) with
  | some e =>
    if now - e.updated_at < 300 then Except.ok (1 / e.rate)
    else stubStep from_currency to_currency
  | none => stubStep from_currency to_currency

/-- `CurrencyService.get_exchange_rate` (usecases.py 167-205), over the
loaded rate cache and the current time. -/
def get_exchange_rate (rates : List (Str × RateEntry)) (now : ℚ)
    (from_currency to_currency : Str) : Except String ℚ :=
  if from_currency = to_currency then Except.ok 1
  else
    match lookup rates (pairKey from_currency to_currency) with
    | some e =>
      if now - e.updated_at < 300 then Except.ok e.rate
      else reverseStep rates now from_currency to_currency
    | none => reverseStep rates now from_currency to_currency

end CurrencyService

/-- Distinct raise sites of `TradingService.sell_currency` (usecases.py
270-316). -/
inductive TradeErr
  | invalid_amount
  | no_wallet
  | insufficient_funds
  | rate_unavailable
  | trade_failed
  | portfolio_error (msg : String)
deriving DecidableEq

/-- Receipt dict returned by `TradingService.sell_currency`. -/
structure TradeReceipt where
  currency : Str
  amount : ℚ
  rate : ℚ
  total_income : ℚ
  old_balance : ℚ
  new_balance : ℚ
deriving DecidableEq

namespace TradingService

/-- `TradingService.sell_currency` (usecases.py 270-316), with the user's
portfolio already loaded.  The receipt balances re-read the source wallet
after the sale, as the Python code reads the mutated `wallet` object. -/
def sell_currency (p : Portfolio) (rates : List (Str × RateEntry)) (now : ℚ)
    (currency : Str) (amount : ℚ) : Except TradeErr (TradeReceipt × Portfolio) :=
  if amount ≤ 0 then Except.error TradeErr.invalid_amount
  else
    match Portfolio.get_wallet p currency with
    | none => Except.error TradeErr.no_wallet
    | some balance =>
      if balance < amount then Except.error TradeErr.insufficient_funds
      else
        match CurrencyService.get_exchange_rate rates now currency cUSD with
        | Except.error _ => Except.error TradeErr.rate_unavailable
        | Except.ok rate =>
          match Portfolio.sell_currency p currency amount rate with
          | (Except.error e, _) => Except.error (TradeErr.portfolio_error e)
          | (Except.ok false, _) => Except.error TradeErr.trade_failed
          | (Except.ok true, p2) =>
            let new_balance := (Portfolio.get_wallet p2 currency).getD 0
            Except.ok
              ({ currency := currency, amount := amount, rate := rate,
                 total_income := amount * rate,
                 old_balance := new_balance + amount,
                 new_balance := new_balance }, p2)

end TradingService

/-- The public mutating operations of the data model, for the balance
invariant: portfolio-level deposit and withdraw (get the wallet, then call
the `Wallet` method and store the result), buy, sell and add. -/
inductive Op
  | deposit_op (currency_code : Str) (amount : ℚ)
  | withdraw_op (currency_code : Str) (amount : ℚ)
  | buy_op (target_currency : Str) (amount price : ℚ)
  | sell_op (source_currency : Str) (amount price : ℚ)
  | add_op (currency_code : Str) (initial_balance : ℚ)

/-- Portfolio state after running one operation, whether it succeeds or
fails (failed calls keep whatever the call mutated before failing). -/
def applyOp (p : Portfolio) : Op → Portfolio
  | Op.deposit_op c a =>
    match Portfolio.get_wallet p c with
    | none => p
    | some b =>
      match Wallet.deposit b a with
      | Except.error _ => p
      | Except.ok b2 => setBal p (upper c) b2
  | Op.withdraw_op c a =>
    match Portfolio.get_wallet p c with
    | none => p
    | some b =>
      match Wallet.withdraw b a with
      | Except.error _ => p
      | Except.ok (_, b2) => setBal p (upper c) b2
  | Op.buy_op t a pr => (Portfolio.buy_currency p t a pr).2
  | Op.sell_op s a pr => (Portfolio.sell_currency p s a pr).2
  | Op.add_op c i =>
    match Portfolio.add_currency p c i with
    | Except.error _ => p
    | Except.ok p2 => p2

/-- Every wallet balance of the portfolio is non-negative. -/
def allNonneg (p : Portfolio) : Prop := ∀ kv ∈ p, 0 ≤ kv.2

/-! ## Helper lemmas -/

theorem toNat_ofNat_valid {n : Nat} (h : n.isValidChar) : (Char.ofNat n).toNat = n := by
  simp only [Char.ofNat, h, dite_true, Char.ofNatAux, Char.toNat, UInt32.toNat]
  simp

theorem toUpper_eq_self {c : Char} (h : ¬(97 ≤ c.toNat ∧ c.toNat ≤ 122)) :
    c.toUpper = c := by
  unfold Char.toUpper
  simp [ge_iff_le, h]

theorem toUpper_of_lower {c : Char} (h : 97 ≤ c.toNat ∧ c.toNat ≤ 122) :
    c.toUpper = Char.ofNat (c.toNat - 32) := by
  unfold Char.toUpper
  simp [ge_iff_le, h]

theorem toUpper_toUpper (c : Char) : c.toUpper.toUpper = c.toUpper := by
  by_cases h : 97 ≤ c.toNat ∧ c.toNat ≤ 122
  · have ht := toNat_ofNat_valid (show (c.toNat - 32).isValidChar from Or.inl (by omega))
    rw [toUpper_of_lower h]
    exact toUpper_eq_self (by rw [ht]; omega)
  · rw [toUpper_eq_self h, toUpper_eq_self h]

@[simp] theorem upper_idem (s : Str) : upper (upper s) = upper s := by
  simp [upper, List.map_map, Function.comp_def, toUpper_toUpper]

@[simp] theorem upper_length (s : Str) : (upper s).length = s.length := by
  simp [upper]

@[simp] theorem upper_nil_iff (s : Str) : upper s = [] ↔ s = [] := by
  simp [upper]

@[simp] theorem upper_cUSD : upper cUSD = cUSD := by decide

theorem lookup_append_some {α : Type} {p q : List (Str × α)} {k : Str} {v : α}
    (h : lookup p k = some v) : lookup (p ++ q) k = some v := by
  induction p with
  | nil => simp [lookup] at h
  | cons kv rest ih =>
    obtain ⟨k0, v0⟩ := kv
    by_cases hk : k0 = k
    · simp [lookup, hk] at h ⊢
      exact h
    · simp [lookup, hk] at h ⊢
      exact ih h

theorem lookup_append_none {α : Type} {p : List (Str × α)} {k : Str}
    (h : lookup p k = none) (q : List (Str × α)) :
    lookup (p ++ q) k = lookup q k := by
  induction p with
  | nil => simp
  | cons kv rest ih =>
    obtain ⟨k0, v0⟩ := kv
    by_cases hk : k0 = k
    · simp [lookup, hk] at h
    · simp [lookup, hk] at h ⊢
      exact ih h

theorem lookup_singleton_self {α : Type} (k : Str) (v : α) :
    lookup [(k, v)] k = some v := by
  simp [lookup]

theorem lookup_setBal_self {p : Portfolio} {k : Str} {b : ℚ}
    (h : lookup p k = some b) (v : ℚ) : lookup (setBal p k v) k = some v := by
  induction p with
  | nil => simp [lookup] at h
  | cons kv rest ih =>
    obtain ⟨k0, v0⟩ := kv
    by_cases hk : k0 = k
    · simp [lookup, setBal, hk]
    · simp [lookup, setBal, hk] at h ⊢
      exact ih h

theorem lookup_setBal_ne {p : Portfolio} {k k' : Str} (hne : k' ≠ k) (v : ℚ) :
    lookup (setBal p k v) k' = lookup p k' := by
  induction p with
  | nil => simp [setBal]
  | cons kv rest ih =>
    obtain ⟨k0, v0⟩ := kv
    by_cases hk : k0 = k
    · subst hk
      simp [lookup, setBal, Ne.symm hne]
    · simp [lookup, setBal, hk]
      by_cases hk' : k0 = k'
      · simp [hk']
      · simp [hk', ih]

theorem lookup_setBal_isSome {p : Portfolio} {k k' : Str} {b : ℚ}
    (h : lookup p k' = some b) (v : ℚ) :
    (lookup (setBal p k v) k').isSome := by
  by_cases hk : k' = k
  · subst hk
    rw [lookup_setBal_self h v]
    rfl
  · rw [lookup_setBal_ne hk v, h]
    rfl

theorem allNonneg_setBal {p : Portfolio} {k : Str} {v : ℚ}
    (hp : allNonneg p) (hv : 0 ≤ v) : allNonneg (setBal p k v) := by
  induction p with
  | nil =>
    intro x hx
    simp [setBal] at hx
  | cons kv rest ih =>
    obtain ⟨k0, v0⟩ := kv
    have hrest : allNonneg rest := fun y hy => hp y (List.mem_cons_of_mem _ hy)
    intro x hx
    simp only [setBal] at hx
    by_cases hk : k0 = k
    · rw [if_pos hk] at hx
      rcases List.mem_cons.mp hx with h | h
      · subst h
        exact hv
      · exact hrest x h
    · rw [if_neg hk] at hx
      rcases List.mem_cons.mp hx with h | h
      · subst h
        exact hp (k0, v0) (List.mem_cons_self _ _)
      · exact ih hrest x h

theorem allNonneg_append_single {p : Portfolio} {k : Str} {v : ℚ}
    (hp : allNonneg p) (hv : 0 ≤ v) : allNonneg (p ++ [(k, v)]) := by
  intro x hx
  rcases List.mem_append.mp hx with hx | hx
  · exact hp x hx
  · simp at hx
    simp [hx, hv]

theorem lookup_nonneg {p : Portfolio} {k : Str} {b : ℚ}
    (hp : allNonneg p) (h : lookup p k = some b) : 0 ≤ b := by
  induction p with
  | nil => simp [lookup] at h
  | cons kv rest ih =>
    obtain ⟨k0, v0⟩ := kv
    by_cases hk : k0 = k
    · simp [lookup, hk] at h
      subst h
      exact hp (k0, v0) (by simp)
    · simp [lookup, hk] at h
      exact ih (fun y hy => hp y (List.mem_cons_of_mem _ hy)) h

theorem get_wallet_upper (p : Portfolio) (c : Str) :
    Portfolio.get_wallet p (upper c) = Portfolio.get_wallet p c := by
  simp [Portfolio.get_wallet]

theorem add_currency_upper (p : Portfolio) (c : Str) (i : ℚ) :
    Portfolio.add_currency p (upper c) i = Portfolio.add_currency p c i := by
  simp [Portfolio.add_currency]

theorem buy_currency_upper (p : Portfolio) (c : Str) (a pr : ℚ) :
    Portfolio.buy_currency p (upper c) a pr = Portfolio.buy_currency p c a pr := by
  simp [Portfolio.buy_currency, Portfolio.get_wallet, add_currency_upper p c]

theorem sell_currency_upper (p : Portfolio) (c : Str) (a pr : ℚ) :
    Portfolio.sell_currency p (upper c) a pr = Portfolio.sell_currency p c a pr := by
  simp [Portfolio.sell_currency, Portfolio.get_wallet]

/-! ## Claim theorems -/

/-- C10: get_wallet, buy_currency, sell_currency and add_currency normalize
the currency-code argument to uppercase, so each behaves identically on a
code and on its uppercased form, and all of them address the single wallet
stored under the uppercase key. -/
theorem portfolio_ops_case_insensitive (p : Portfolio) (c : Str)
    (amount price initial : ℚ) :
    Portfolio.get_wallet p c = Portfolio.get_wallet p (upper c) ∧
    Portfolio.buy_currency p c amount price
      = Portfolio.buy_currency p (upper c) amount price ∧
    Portfolio.sell_currency p c amount price
      = Portfolio.sell_currency p (upper c) amount price ∧
    Portfolio.add_currency p c initial
      = Portfolio.add_currency p (upper c) initial :=
  ⟨(get_wallet_upper p c).symm, (buy_currency_upper p c amount price).symm,
   (sell_currency_upper p c amount price).symm,
   (add_currency_upper p c initial).symm⟩

/-- C9 counterexample: the claim admits 4-character codes, but constructing
a Wallet with the 4-character code DOGE raises, both directly and through
add_currency. -/
theorem wallet_code_counterexample :
    Wallet.new ['D', 'O', 'G', 'E'] 0 =
      Except.error "Код валюты должен состоять из 3 символов" ∧
    isSuccess (Portfolio.add_currency [] ['D', 'O', 'G', 'E'] 0) = false := by
  constructor
  · norm_num [Wallet.new]
  · norm_num +decide [Portfolio.add_currency, Wallet.new, lookup, isSuccess]

/-- C9 amended: a Wallet can be created exactly for currency codes of
length 3 (with a non-negative balance), and the stored code is the
uppercased input; add_currency then stores that wallet under the uppercase
key. Codes of length 4 or 5 are rejected. -/
theorem wallet_code_amended (c : Str) (b : ℚ) (p : Portfolio) :
    (isSuccess (Wallet.new c b) = true ↔ c.length = 3 ∧ 0 ≤ b) ∧
    (c.length = 3 → 0 ≤ b → Wallet.new c b = Except.ok (upper c, b)) ∧
    (c.length = 3 → 0 ≤ b → lookup p (upper c) = none →
      Portfolio.add_currency p c b = Except.ok (p ++ [(upper c, b)])) := by
  have hiff : isSuccess (Wallet.new c b) = true ↔ c.length = 3 ∧ 0 ≤ b := by
    constructor
    · intro h
      by_cases hl : c.length = 3
      · by_cases hb : b < 0
        · simp [Wallet.new, hl, hb, isSuccess] at h
        · exact ⟨hl, not_lt.mp hb⟩
      · simp [Wallet.new, hl, isSuccess] at h
    · rintro ⟨hl, hb⟩
      simp [Wallet.new, hl, not_lt_of_le hb, isSuccess]
  have hok : c.length = 3 → 0 ≤ b → Wallet.new c b = Except.ok (upper c, b) := by
    intro hl hb
    simp [Wallet.new, hl, not_lt_of_le hb]
  refine ⟨hiff, hok, ?_⟩
  intro hl hb hnone
  have hne : c ≠ [] := by
    intro h
    rw [h] at hl
    simp at hl
  have hlu : (upper c).length = 3 := by
    rw [upper_length]
    exact hl
  simp [Portfolio.add_currency, hne, hnone, Wallet.new, hlu, not_lt_of_le hb]

/-- C9 witness: a concrete 3-character lowercase code is accepted and
stored uppercased. -/
theorem wallet_code_amended_witness :
    Wallet.new ['b', 't', 'c'] 5 = Except.ok (upper ['b', 't', 'c'], 5) ∧
    Portfolio.add_currency [] ['b', 't', 'c'] 5 =
      Except.ok ([] ++ [(upper ['b', 't', 'c'], 5)]) :=
  ⟨(wallet_code_amended ['b', 't', 'c'] 5 []).2.1 (by decide) (by norm_num),
   (wallet_code_amended ['b', 't', 'c'] 5 []).2.2 (by decide) (by norm_num)
     (by simp [lookup])⟩

theorem get_rate_not_fresh_direct {rates : List (Str × RateEntry)} {now : ℚ}
    {f t : Str} (hne : f ≠ t)
    (hdir : ¬ freshQuote rates now (pairKey f t)) :
    CurrencyService.get_exchange_rate rates now f t =
      CurrencyService.reverseStep rates now f t := by
  rcases hab : lookup rates (pairKey f t) with _ | e
  · simp [CurrencyService.get_exchange_rate, hne, hab]
  · have hst : ¬(now - e.updated_at < 300) := fun hc => hdir ⟨e, hab, hc⟩
    simp [CurrencyService.get_exchange_rate, hne, hab, hst]

theorem reverseStep_not_fresh {rates : List (Str × RateEntry)} {now : ℚ}
    {f t : Str} (hrev : ¬ freshQuote rates now (pairKey t f)) :
    CurrencyService.reverseStep rates now f t = CurrencyService.stubStep f t := by
  rcases hba : lookup rates (pairKey t f) with _ | e
  · simp [CurrencyService.reverseStep, hba]
  · have hst : ¬(now - e.updated_at < 300) := fun hc => hrev ⟨e, hba, hc⟩
    simp [CurrencyService.reverseStep, hba, hst]

/-- C4: for distinct currencies with no fresh direct and no fresh reverse
quote, get_exchange_rate returns the static cross rate
`to_value / from_value` whenever both currencies are in the fallback
table, and it fails exactly when, in addition to both quotes being
missing or stale, one of the two fallback entries is absent. -/
theorem rate_fallback_and_failure (rates : List (Str × RateEntry)) (now : ℚ)
    (from_currency to_currency : Str) (hne : from_currency ≠ to_currency) :
    (∀ from_value to_value,
      ¬ freshQuote rates now (pairKey from_currency to_currency) →
      ¬ freshQuote rates now (pairKey to_currency from_currency) →
      lookup CurrencyService.stub_rates from_currency = some from_value →
      lookup CurrencyService.stub_rates to_currency = some to_value →
      CurrencyService.get_exchange_rate rates now from_currency to_currency =
        Except.ok (to_value / from_value)) ∧
    (isSuccess (CurrencyService.get_exchange_rate rates now from_currency
        to_currency) = false ↔
      (¬ freshQuote rates now (pairKey from_currency to_currency) ∧
       ¬ freshQuote rates now (pairKey to_currency from_currency) ∧
       (lookup CurrencyService.stub_rates from_currency = none ∨
        lookup CurrencyService.stub_rates to_currency = none))) := by
  constructor
  · intro fv tv hdir hrev hf ht
    rw [get_rate_not_fresh_direct hne hdir, reverseStep_not_fresh hrev]
    simp [CurrencyService.stubStep, hf, ht]
  · by_cases hdir : freshQuote rates now (pairKey from_currency to_currency)
    · obtain ⟨e, he, hf⟩ := hdir
      have hok : CurrencyService.get_exchange_rate rates now from_currency
          to_currency = Except.ok e.rate := by
        simp [CurrencyService.get_exchange_rate, hne, he, hf]
      rw [hok]
      simp only [isSuccess]
      constructor
      · intro h
        exact absurd h (by decide)
      · rintro ⟨hd, _⟩
        exact absurd ⟨e, he, hf⟩ hd
    · rw [get_rate_not_fresh_direct hne hdir]
      by_cases hrev : freshQuote rates now (pairKey to_currency from_currency)
      · obtain ⟨e, he, hf⟩ := hrev
        have hok : CurrencyService.reverseStep rates now from_currency
            to_currency = Except.ok (1 / e.rate) := by
          simp [CurrencyService.reverseStep, he, hf]
        rw [hok]
        simp only [isSuccess]
        constructor
        · intro h
          exact absurd h (by decide)
        · rintro ⟨_, hr, _⟩
          exact absurd ⟨e, he, hf⟩ hr
      · rw [reverseStep_not_fresh hrev]
        rcases hf : lookup CurrencyService.stub_rates from_currency with _ | fv <;>
          rcases ht : lookup CurrencyService.stub_rates to_currency with _ | tv <;>
            simp [CurrencyService.stubStep, hf, ht, isSuccess, hdir, hrev]

/-- C4 witness: EUR→JPY with an empty rate cache is served from the
fallback table as the cross rate 110 / 0.85. -/
theorem rate_fallback_witness :
    CurrencyService.get_exchange_rate [] 0 cEUR cJPY = Except.ok (110 / 0.85) :=
  (rate_fallback_and_failure [] 0 cEUR cJPY (by decide)).1 0.85 110
    (by simp [freshQuote, lookup]) (by simp [freshQuote, lookup])
    (by simp +decide [CurrencyService.stub_rates, lookup])
    (by simp +decide [CurrencyService.stub_rates, lookup])

/-- C5: when the only fresh quote for a pair is stored for the direction
(A, B) with positive rate r, get_rate(A, B) returns r verbatim,
get_rate(B, A) returns the derived reciprocal 1/r, and the two results
satisfy get_rate(A, B) = 1 / get_rate(B, A). -/
theorem rate_one_direction_reciprocal (rates : List (Str × RateEntry))
    (now : ℚ) (A B : Str) (e : RateEntry) (r : ℚ) (hne : A ≠ B)
    (hd : lookup rates (pairKey A B) = some e)
    (hf : now - e.updated_at < 300) (hr : e.rate = r) (hpos : 0 < r)
    (hrev : ¬ freshQuote rates now (pairKey B A)) :
    CurrencyService.get_exchange_rate rates now A B = Except.ok r ∧
    CurrencyService.get_exchange_rate rates now B A = Except.ok (1 / r) ∧
    r = 1 / (1 / r) := by
  refine ⟨?_, ?_, (one_div_one_div r).symm⟩
  · simp [CurrencyService.get_exchange_rate, hne, hd, hf, hr]
  · rw [get_rate_not_fresh_direct (Ne.symm hne) hrev]
    simp [CurrencyService.reverseStep, hd, hf, hr]

/-- C5 witness: a single fresh EUR→USD quote of 0.85 serves both
directions, the reverse as the reciprocal. -/
theorem rate_one_direction_reciprocal_witness :
    CurrencyService.get_exchange_rate [(pairKey cEUR cUSD, ⟨0.85, 0⟩)] 10
      cEUR cUSD = Except.ok 0.85 ∧
    CurrencyService.get_exchange_rate [(pairKey cEUR cUSD, ⟨0.85, 0⟩)] 10
      cUSD cEUR = Except.ok (1 / 0.85) ∧
    (0.85 : ℚ) = 1 / (1 / 0.85) :=
  rate_one_direction_reciprocal [(pairKey cEUR cUSD, ⟨0.85, 0⟩)] 10 cEUR cUSD
    ⟨0.85, 0⟩ 0.85 (by decide) (by simp [lookup])
    (by show (10 : ℚ) - 0 < 300; norm_num) rfl (by norm_num)
    (by simp +decide [freshQuote, lookup, pairKey])

/-- C8: TradingService.sell_currency validates wallet existence and balance
before any rate lookup, so with a positive amount a missing wallet fails
with the missing-wallet error and a too-small balance with the
insufficient-funds error, for every rate cache, including ones with no
usable rate for the currency. -/
theorem sell_validates_before_rate (p : Portfolio)
    (rates : List (Str × RateEntry)) (now : ℚ) (currency : Str) (amount : ℚ)
    (h : 0 < amount) :
    (Portfolio.get_wallet p currency = none →
      TradingService.sell_currency p rates now currency amount =
        Except.error TradeErr.no_wallet) ∧
    (∀ balance, Portfolio.get_wallet p currency = some balance →
      balance < amount →
      TradingService.sell_currency p rates now currency amount =
        Except.error TradeErr.insufficient_funds) := by
  constructor
  · intro hw
    simp [TradingService.sell_currency, not_le_of_lt h, hw]
  · intro balance hw hb
    simp [TradingService.sell_currency, not_le_of_lt h, hw, hb]

/-- C8 witness: the currency XYZ has no stub rate and the cache is empty,
yet the missing-wallet and insufficient-funds errors are still produced. -/
theorem sell_validates_before_rate_witness :
    TradingService.sell_currency [] [] 0 cXYZ 1 =
      Except.error TradeErr.no_wallet ∧
    TradingService.sell_currency [(cXYZ, 1)] [] 0 cXYZ 2 =
      Except.error TradeErr.insufficient_funds :=
  ⟨(sell_validates_before_rate [] [] 0 cXYZ 1 (by norm_num)).1
      (by simp [Portfolio.get_wallet, lookup]),
   (sell_validates_before_rate [(cXYZ, 1)] [] 0 cXYZ 2 (by norm_num)).2 1
      (by simp +decide [Portfolio.get_wallet, lookup]) (by norm_num)⟩

theorem round2_of_int (n : ℤ) (q : ℚ) (h : q * 100 = (n : ℚ)) :
    Portfolio.round2 q = (n : ℚ) / 100 := by
  unfold Portfolio.round2 Portfolio.roundHalfEven
  rw [h, Int.floor_intCast]
  norm_num

theorem totalLoop_eq (base_currency : Str) (l : List (Str × ℚ)) (acc : ℚ) :
    Portfolio.totalLoop base_currency l acc = acc + walletsValue l base_currency := by
  induction l generalizing acc with
  | nil => simp [Portfolio.totalLoop, walletsValue]
  | cons kv rest ih =>
    obtain ⟨c, b⟩ := kv
    by_cases hb : c = base_currency
    · subst hb
      rcases hc : lookup Portfolio.exchange_rates c with _ | rc
      · simp [Portfolio.totalLoop, hc, ih, walletsValue]
      · simp [Portfolio.totalLoop, hc, ih, walletsValue, convert_one]
        ring
    · rcases hc : lookup Portfolio.exchange_rates c with _ | rc
      · simp [Portfolio.totalLoop, hc, ih, walletsValue]
      · simp [Portfolio.totalLoop, hc, hb, ih, walletsValue, convert_one]
        ring

/-- C7: get_total_value skips wallets whose currency is missing from the
rate table and returns the rounded sum of the remaining balances
converted into the base currency; it fails exactly when the base
currency itself is unknown; on the portfolio XYZ=7 plus USD=50 with base
USD it returns 50 and does not fail. -/
theorem total_value_skips_unknown (p : Portfolio) (base_currency : Str) :
    (isSuccess (Portfolio.get_total_value p base_currency) = true ↔
      (lookup Portfolio.exchange_rates base_currency).isSome = true) ∧
    ((lookup Portfolio.exchange_rates base_currency).isSome = true →
      Portfolio.get_total_value p base_currency =
        Except.ok (Portfolio.round2 (walletsValue p base_currency))) ∧
    Portfolio.get_total_value [(cXYZ, 7), (cUSD, 50)] cUSD = Except.ok 50 := by
  refine ⟨?_, ?_, ?_⟩
  · rcases hbase : lookup Portfolio.exchange_rates base_currency with _ | rb <;>
      simp [Portfolio.get_total_value, hbase, isSuccess]
  · intro hbase
    have hnone : (lookup Portfolio.exchange_rates base_currency).isNone = false := by
      rcases h : lookup Portfolio.exchange_rates base_currency with _ | rb
      · rw [h] at hbase
        simp at hbase
      · simp
    simp [Portfolio.get_total_value, hnone, totalLoop_eq]
  · have husd : lookup Portfolio.exchange_rates cUSD = some 1 := by
      simp [Portfolio.exchange_rates, lookup]
    have hxyz : lookup Portfolio.exchange_rates cXYZ = none := by
      simp +decide [Portfolio.exchange_rates, lookup]
    have hloop : Portfolio.totalLoop cUSD [(cXYZ, 7), (cUSD, 50)] 0 = 50 := by
      simp [Portfolio.totalLoop, husd, hxyz]
    have hround : Portfolio.round2 (50 : ℚ) = 50 := by
      have := round2_of_int 5000 50 (by norm_num)
      rw [this]
      norm_num
    simp [Portfolio.get_total_value, husd, hloop, hround]

/-- C7 witness: the XYZ+USD portfolio with base USD evaluates through the
rounded converted sum. -/
theorem total_value_skips_unknown_witness :
    Portfolio.get_total_value [(cXYZ, 7), (cUSD, 50)] cUSD =
      Except.ok (Portfolio.round2 (walletsValue [(cXYZ, 7), (cUSD, 50)] cUSD)) :=
  (total_value_skips_unknown [(cXYZ, 7), (cUSD, 50)] cUSD).2.1
    (by simp [Portfolio.exchange_rates, lookup])

theorem add_currency_ok {p p1 : Portfolio} {c : Str} {i : ℚ}
    (h : Portfolio.add_currency p c i = Except.ok p1) :
    p1 = p ++ [(upper c, i)] ∧ lookup p (upper c) = none ∧ 0 ≤ i ∧
      c.length = 3 := by
  by_cases hnil : c = []
  · rw [Portfolio.add_currency, if_pos hnil] at h
    cases h
  · rw [Portfolio.add_currency, if_neg hnil] at h
    simp only at h
    by_cases hlk : (lookup p (upper c)).isSome
    · rw [if_pos hlk] at h
      cases h
    · rw [if_neg hlk] at h
      have hnone : lookup p (upper c) = none := by
        rcases hl : lookup p (upper c) with _ | v
        · rfl
        · rw [hl] at hlk
          simp at hlk
      by_cases hlen : (upper c).length ≠ 3
      · rw [Wallet.new, if_pos hlen] at h
        cases h
      · by_cases hneg : i < 0
        · rw [Wallet.new, if_neg hlen, if_pos hneg] at h
          cases h
        · rw [Wallet.new, if_neg hlen, if_neg hneg] at h
          simp only [upper_idem] at h
          cases h
          refine ⟨rfl, hnone, not_lt.mp hneg, ?_⟩
          rw [← upper_length c]
          exact not_ne_iff.mp hlen

theorem buy_currency_rest_ok {p : Portfolio} {tkey : Str}
    {amount cost u t : ℚ}
    (husd : lookup p cUSD = some u) (hcost : cost ≤ u) (hcpos : 0 < cost)
    (hapos : 0 < amount)
    (htk : lookup (setBal p cUSD (u - cost)) tkey = some t)
    (hdep : ¬ (t + amount < 0)) :
    Portfolio.buy_currency_rest p tkey amount cost =
      (Except.ok true, setBal (setBal p cUSD (u - cost)) tkey (t + amount)) := by
  have hwg : ¬ (u - cost < 0) := by linarith
  simp [Portfolio.buy_currency_rest, Portfolio.get_wallet, husd,
    not_lt.mpr hcost, Wallet.withdraw, not_le_of_lt hcpos, hwg, htk,
    Wallet.deposit, not_le_of_lt hapos, hdep]

theorem buy_currency_rest_fail {p : Portfolio} {tkey : Str} {amount cost : ℚ}
    (hp : allNonneg p) (ha : 0 < amount) (htk : (lookup p tkey).isSome)
    (hres : (Portfolio.buy_currency_rest p tkey amount cost).1 ≠ Except.ok true) :
    (Portfolio.buy_currency_rest p tkey amount cost).2 = p := by
  rcases husd : Portfolio.get_wallet p cUSD with _ | u
  · simp [Portfolio.buy_currency_rest, husd]
  · by_cases hlt : u < cost
    · simp [Portfolio.buy_currency_rest, husd, hlt]
    · by_cases hc0 : cost ≤ 0
      · simp [Portfolio.buy_currency_rest, husd, hlt, Wallet.withdraw, hc0]
      · exfalso
        have huc : 0 ≤ u - cost := by
          have := not_lt.mp hlt
          linarith
        obtain ⟨t0, ht0⟩ := Option.isSome_iff_exists.mp htk
        obtain ⟨t, ht⟩ := Option.isSome_iff_exists.mp
          (lookup_setBal_isSome (k := cUSD) ht0 (u - cost))
        have htnn : 0 ≤ t := lookup_nonneg (allNonneg_setBal hp huc) ht
        have hdep : ¬ (t + amount < 0) := by linarith
        apply hres
        simp [Portfolio.buy_currency_rest, husd, hlt, Wallet.withdraw, hc0,
          not_lt.mpr huc, ht, Wallet.deposit, not_le_of_lt ha, hdep]

/-- C1 counterexample: buying USD itself is a valid buy operation by the
claim's preconditions (amount 1 > 0, price 2 > 0, USD wallet exists with
balance 100 ≥ 1*2 = cost) and succeeds, but the target wallet is the USD
wallet, so the final balance is 100 - 2 + 1 = 99: neither the claimed USD
balance 98 nor the claimed target balance 101. -/
theorem buy_exact_balances_counterexample :
    Portfolio.get_wallet [(cUSD, 100)] cUSD = some 100 ∧
    (1 : ℚ) * 2 ≤ 100 ∧
    Portfolio.buy_currency [(cUSD, 100)] cUSD 1 2 =
      (Except.ok true, [(cUSD, 99)]) ∧
    Portfolio.get_wallet [(cUSD, 99)] cUSD = some 99 ∧
    (99 : ℚ) ≠ 100 - 1 * 2 ∧ (99 : ℚ) ≠ 100 + 1 := by
  refine ⟨by simp [Portfolio.get_wallet, lookup], by norm_num, ?_,
    by simp [Portfolio.get_wallet, lookup], by norm_num, by norm_num⟩
  norm_num [Portfolio.buy_currency, Portfolio.buy_currency_rest,
    Portfolio.get_wallet, Wallet.withdraw, Wallet.deposit, lookup, setBal]

/-- C1 amended: for every valid buy operation whose target currency is not
USD itself (amount > 0, price > 0, USD wallet exists, USD balance ≥
amount*price), when buy_currency returns success the USD balance drops by
exactly amount*price and the target balance (0 for a freshly created
wallet) grows by exactly amount. -/
theorem buy_exact_balances_amended (p p2 : Portfolio) (target_currency : Str)
    (amount price u : ℚ) (ha : 0 < amount) (hpr : 0 < price)
    (husd : Portfolio.get_wallet p cUSD = some u) (hbal : amount * price ≤ u)
    (hne : upper target_currency ≠ cUSD)
    (hrun : Portfolio.buy_currency p target_currency amount price =
      (Except.ok true, p2)) :
    Portfolio.get_wallet p2 cUSD = some (u - amount * price) ∧
    Portfolio.get_wallet p2 target_currency =
      some ((Portfolio.get_wallet p target_currency).getD 0 + amount) := by
  have husd' : lookup p cUSD = some u := by
    simpa [Portfolio.get_wallet] using husd
  have hcpos : 0 < amount * price := mul_pos ha hpr
  rcases hw : Portfolio.get_wallet p target_currency with _ | t
  · simp only [Portfolio.buy_currency, if_neg (not_le_of_lt ha),
      if_neg (not_le_of_lt hpr), hw] at hrun
    rcases hadd : Portfolio.add_currency p target_currency 0 with e | p1
    · simp only [hadd] at hrun
      exact absurd (congrArg Prod.fst hrun) (by simp)
    · simp only [hadd] at hrun
      obtain ⟨hp1, hlknone, -, -⟩ := add_currency_ok hadd
      subst hp1
      have husd1 : lookup (p ++ [(upper target_currency, 0)]) cUSD = some u :=
        lookup_append_some husd'
      have htk : lookup (setBal (p ++ [(upper target_currency, 0)]) cUSD
          (u - amount * price)) (upper target_currency) = some 0 := by
        rw [lookup_setBal_ne hne]
        rw [lookup_append_none hlknone]
        exact lookup_singleton_self _ 0
      have hdep : ¬ ((0 : ℚ) + amount < 0) := by
        rw [zero_add]
        exact not_lt.mpr ha.le
      rw [buy_currency_rest_ok husd1 hbal hcpos ha htk hdep] at hrun
      have hp2 := congrArg Prod.snd hrun
      simp only at hp2
      rw [← hp2]
      constructor
      · rw [Portfolio.get_wallet, upper_cUSD, lookup_setBal_ne (Ne.symm hne),
          lookup_setBal_self husd1]
      · rw [Portfolio.get_wallet, lookup_setBal_self htk]
        simp
  · simp only [Portfolio.buy_currency, if_neg (not_le_of_lt ha),
      if_neg (not_le_of_lt hpr), hw] at hrun
    have hlkt : lookup p (upper target_currency) = some t := by
      simpa [Portfolio.get_wallet] using hw
    have htk : lookup (setBal p cUSD (u - amount * price))
        (upper target_currency) = some t := by
      rw [lookup_setBal_ne hne]
      exact hlkt
    by_cases hdep : t + amount < 0
    · exfalso
      have hwg : ¬ (u - amount * price < 0) := by linarith
      have hbad : Portfolio.buy_currency_rest p (upper target_currency)
          amount (amount * price) =
          (Except.error "Баланс не может быть отрицательным",
            setBal p cUSD (u - amount * price)) := by
        simp [Portfolio.buy_currency_rest, Portfolio.get_wallet, husd',
          not_lt.mpr hbal, Wallet.withdraw, not_le_of_lt hcpos, hwg, htk,
          Wallet.deposit, not_le_of_lt ha, hdep]
      rw [hbad] at hrun
      exact absurd (congrArg Prod.fst hrun) (by simp)
    · rw [buy_currency_rest_ok husd' hbal hcpos ha htk hdep] at hrun
      have hp2 := congrArg Prod.snd hrun
      simp only at hp2
      rw [← hp2]
      constructor
      · rw [Portfolio.get_wallet, upper_cUSD, lookup_setBal_ne (Ne.symm hne),
          lookup_setBal_self husd']
      · rw [Portfolio.get_wallet, lookup_setBal_self htk]
        simp [hw]

/-- C1 witness: buying 2 BTC at price 50 from a USD balance of 100 empties
the USD wallet and creates a BTC wallet holding 2. -/
theorem buy_exact_balances_amended_witness :
    Portfolio.get_wallet [(cUSD, 0), (cBTC, 2)] cUSD = some (100 - 2 * 50) ∧
    Portfolio.get_wallet [(cUSD, 0), (cBTC, 2)] cBTC =
      some ((Portfolio.get_wallet [(cUSD, 100)] cBTC).getD 0 + 2) :=
  buy_exact_balances_amended [(cUSD, 100)] [(cUSD, 0), (cBTC, 2)] cBTC 2 50 100
    (by norm_num) (by norm_num) (by simp [Portfolio.get_wallet, lookup])
    (by norm_num) (by decide)
    (by norm_num +decide [Portfolio.buy_currency, Portfolio.buy_currency_rest,
      Portfolio.add_currency, Portfolio.get_wallet, Wallet.new,
      Wallet.withdraw, Wallet.deposit, lookup, setBal])

/-- C3 counterexample: buying EUR on a portfolio with no USD wallet fails
with the missing-USD-wallet error, yet the portfolio is not left
unchanged: a fresh zero-balance EUR wallet has been created before the
USD check. -/
theorem buy_validation_counterexample :
    Portfolio.buy_currency [] cEUR 1 1 =
      (Except.error "USD кошелёк не найден для совершения покупки",
        [(cEUR, 0)]) ∧
    ([(cEUR, 0)] : Portfolio) ≠ [] := by
  refine ⟨?_, by simp⟩
  norm_num +decide [Portfolio.buy_currency, Portfolio.buy_currency_rest,
    Portfolio.add_currency, Portfolio.get_wallet, Wallet.new, lookup]

/-- C3 amended: on a portfolio satisfying the Wallet invariant (all
balances non-negative), a failing buy_currency call never changes an
existing balance; failures on the amount/price validation leave the
portfolio exactly unchanged; every failure leaves the portfolio either
unchanged or with a single new zero-balance wallet for the target
currency appended (the lazy target-wallet creation precedes the
USD-wallet and funds checks). -/
theorem buy_validation_amended (p p2 : Portfolio) (target_currency : Str)
    (amount price : ℚ) (res : Except String Bool) (hnn : allNonneg p)
    (hrun : Portfolio.buy_currency p target_currency amount price = (res, p2))
    (hfail : res ≠ Except.ok true) :
    (∀ c v, lookup p c = some v → lookup p2 c = some v) ∧
    ((amount ≤ 0 ∨ price ≤ 0) → p2 = p) ∧
    (p2 = p ∨ p2 = p ++ [(upper target_currency, 0)]) := by
  have main : p2 = p ∨ p2 = p ++ [(upper target_currency, 0)] := by
    by_cases ha : amount ≤ 0
    · simp only [Portfolio.buy_currency, if_pos ha] at hrun
      exact Or.inl (congrArg Prod.snd hrun).symm
    · by_cases hpr : price ≤ 0
      · simp only [Portfolio.buy_currency, if_neg ha, if_pos hpr] at hrun
        exact Or.inl (congrArg Prod.snd hrun).symm
      · have ha' : 0 < amount := not_le.mp ha
        rcases hw : Portfolio.get_wallet p target_currency with _ | t
        · simp only [Portfolio.buy_currency, if_neg ha, if_neg hpr, hw] at hrun
          rcases hadd : Portfolio.add_currency p target_currency 0 with e | p1
          · simp only [hadd] at hrun
            exact Or.inl (congrArg Prod.snd hrun).symm
          · simp only [hadd] at hrun
            obtain ⟨hp1, hlknone, -, -⟩ := add_currency_ok hadd
            subst hp1
            have htk1 : (lookup (p ++ [(upper target_currency, 0)])
                (upper target_currency)).isSome := by
              rw [lookup_append_none hlknone, lookup_singleton_self]
              rfl
            have hres1 : res = (Portfolio.buy_currency_rest
                (p ++ [(upper target_currency, 0)]) (upper target_currency)
                amount (amount * price)).1 := (congrArg Prod.fst hrun).symm
            have h2 := buy_currency_rest_fail
              (allNonneg_append_single hnn le_rfl) ha' htk1
              (fun hcon => hfail (hres1.trans hcon))
            exact Or.inr ((congrArg Prod.snd hrun).symm.trans h2)
        · simp only [Portfolio.buy_currency, if_neg ha, if_neg hpr, hw] at hrun
          have htk1 : (lookup p (upper target_currency)).isSome := by
            have hlkt : lookup p (upper target_currency) = some t := by
              simpa [Portfolio.get_wallet] using hw
            rw [hlkt]
            rfl
          have hres1 : res = (Portfolio.buy_currency_rest p
              (upper target_currency) amount (amount * price)).1 :=
            (congrArg Prod.fst hrun).symm
          have h2 := buy_currency_rest_fail hnn ha' htk1
            (fun hcon => hfail (hres1.trans hcon))
          exact Or.inl ((congrArg Prod.snd hrun).symm.trans h2)
  refine ⟨?_, ?_, main⟩
  · intro c v hv
    rcases main with h | h
    · rw [h]
      exact hv
    · rw [h]
      exact lookup_append_some hv
  · intro hip
    by_cases ha : amount ≤ 0
    · simp only [Portfolio.buy_currency, if_pos ha] at hrun
      exact (congrArg Prod.snd hrun).symm
    · have hpr : price ≤ 0 := hip.resolve_left ha
      simp only [Portfolio.buy_currency, if_neg ha, if_pos hpr] at hrun
      exact (congrArg Prod.snd hrun).symm

/-- C3 witness: a buy that fails on the missing USD wallet, with the target
wallet already present, leaves the portfolio as one of the two allowed
shapes. -/
theorem buy_validation_amended_witness :
    ([(cEUR, 5)] : Portfolio) = [(cEUR, 5)] ∨
      ([(cEUR, 5)] : Portfolio) = [(cEUR, 5)] ++ [(upper cEUR, 0)] :=
  (buy_validation_amended [(cEUR, 5)] [(cEUR, 5)] cEUR 1 1
    (Except.error "USD кошелёк не найден для совершения покупки")
    (by
      intro kv hkv
      simp at hkv
      rw [hkv]
      norm_num)
    (by norm_num +decide [Portfolio.buy_currency, Portfolio.buy_currency_rest,
      Portfolio.get_wallet, lookup])
    (by simp)).2.2

/-- C2 counterexample: selling 2 EUR from a wallet holding 1, with no USD
wallet present, returns the insufficient-funds result (not an exception),
but a new zero-balance USD wallet has been created, so the portfolio is
mutated by wallet creation. -/
theorem sell_insufficient_counterexample :
    Portfolio.sell_currency [(cEUR, 1)] cEUR 2 1 =
      (Except.ok false, [(cEUR, 1), (cUSD, 0)]) ∧
    ([(cEUR, 1), (cUSD, 0)] : Portfolio) ≠ [(cEUR, 1)] := by
  refine ⟨?_, by simp⟩
  norm_num +decide [Portfolio.sell_currency, Portfolio.sell_currency_rest,
    Portfolio.get_wallet, Portfolio.add_currency, Wallet.new, lookup]

/-- C2 amended: with positive amount and price and an existing source
wallet whose balance is below the amount, sell_currency returns the
insufficient-funds result `false` and changes no existing balance, but
when the portfolio has no USD wallet it appends a fresh zero-balance USD
wallet before the balance check. -/
theorem sell_insufficient_amended (p : Portfolio) (source_currency : Str)
    (amount price balance : ℚ) (ha : 0 < amount) (hpr : 0 < price)
    (hw : Portfolio.get_wallet p source_currency = some balance)
    (hb : balance < amount) :
    Portfolio.sell_currency p source_currency amount price =
      (Except.ok false,
        if (Portfolio.get_wallet p cUSD).isSome then p
        else p ++ [(cUSD, 0)]) := by
  have hgw : lookup p (upper source_currency) = some balance := by
    simpa [Portfolio.get_wallet] using hw
  rcases husd : lookup p cUSD with _ | u
  · have husd' : Portfolio.get_wallet p cUSD = none := by
      simpa [Portfolio.get_wallet] using husd
    have hadd : Portfolio.add_currency p cUSD 0 =
        Except.ok (p ++ [(cUSD, 0)]) := by
      have h3 : cUSD.length = 3 := by decide
      have hnil : cUSD ≠ ([] : Str) := by decide
      simp [Portfolio.add_currency, hnil, husd, Wallet.new, h3]
    have hrest : Portfolio.sell_currency_rest (p ++ [(cUSD, 0)])
        (upper source_currency) amount (amount * price) =
        (Except.ok false, p ++ [(cUSD, 0)]) := by
      simp [Portfolio.sell_currency_rest, lookup_append_some hgw, hb]
    simp [Portfolio.sell_currency, not_le_of_lt ha, not_le_of_lt hpr, hw,
      husd', hadd, hrest]
  · have husd' : Portfolio.get_wallet p cUSD = some u := by
      simpa [Portfolio.get_wallet] using husd
    have hrest : Portfolio.sell_currency_rest p (upper source_currency)
        amount (amount * price) = (Except.ok false, p) := by
      simp [Portfolio.sell_currency_rest, hgw, hb]
    simp [Portfolio.sell_currency, not_le_of_lt ha, not_le_of_lt hpr, hw,
      husd', hrest]

/-- C2 witness: selling 3 GBP from a balance of 2 with a USD wallet present
keeps the portfolio exactly unchanged. -/
theorem sell_insufficient_amended_witness :
    Portfolio.sell_currency [(cGBP, 2), (cUSD, 7)] cGBP 3 1 =
      (Except.ok false,
        if (Portfolio.get_wallet [(cGBP, 2), (cUSD, 7)] cUSD).isSome then
          [(cGBP, 2), (cUSD, 7)]
        else [(cGBP, 2), (cUSD, 7)] ++ [(cUSD, 0)]) :=
  sell_insufficient_amended [(cGBP, 2), (cUSD, 7)] cGBP 3 1 2 (by norm_num)
    (by norm_num) (by simp +decide [Portfolio.get_wallet, lookup])
    (by norm_num)

theorem buy_currency_rest_nonneg {p : Portfolio} {tkey : Str}
    {amount cost : ℚ} (hp : allNonneg p) :
    allNonneg (Portfolio.buy_currency_rest p tkey amount cost).2 := by
  rcases husd : Portfolio.get_wallet p cUSD with _ | u
  · simpa [Portfolio.buy_currency_rest, husd] using hp
  · by_cases hlt : u < cost
    · simpa [Portfolio.buy_currency_rest, husd, hlt] using hp
    · by_cases hc0 : cost ≤ 0
      · simpa [Portfolio.buy_currency_rest, husd, hlt, Wallet.withdraw, hc0]
          using hp
      · have huc : ¬ (u - cost < 0) := by
          have := not_lt.mp hlt
          linarith
        have hp2 : allNonneg (setBal p cUSD (u - cost)) :=
          allNonneg_setBal hp (not_lt.mp huc)
        rcases htk : lookup (setBal p cUSD (u - cost)) tkey with _ | t
        · simpa [Portfolio.buy_currency_rest, husd, hlt, Wallet.withdraw,
            hc0, huc, htk] using hp2
        · by_cases ha0 : amount ≤ 0
          · simpa [Portfolio.buy_currency_rest, husd, hlt, Wallet.withdraw,
              hc0, huc, htk, Wallet.deposit, ha0] using hp2
          · by_cases hdep : t + amount < 0
            · simpa [Portfolio.buy_currency_rest, husd, hlt, Wallet.withdraw,
                hc0, huc, htk, Wallet.deposit, ha0, hdep] using hp2
            · simpa [Portfolio.buy_currency_rest, husd, hlt, Wallet.withdraw,
                hc0, huc, htk, Wallet.deposit, ha0, hdep] using
                allNonneg_setBal hp2 (not_lt.mp hdep)

theorem sell_currency_rest_nonneg {p : Portfolio} {skey : Str}
    {amount income : ℚ} (hp : allNonneg p) :
    allNonneg (Portfolio.sell_currency_rest p skey amount income).2 := by
  rcases hsk : lookup p skey with _ | s
  · simpa [Portfolio.sell_currency_rest, hsk] using hp
  · by_cases hlt : s < amount
    · simpa [Portfolio.sell_currency_rest, hsk, hlt] using hp
    · by_cases ha0 : amount ≤ 0
      · simpa [Portfolio.sell_currency_rest, hsk, hlt, Wallet.withdraw, ha0]
          using hp
      · have hsa : ¬ (s - amount < 0) := by
          have := not_lt.mp hlt
          linarith
        have hp2 : allNonneg (setBal p skey (s - amount)) :=
          allNonneg_setBal hp (not_lt.mp hsa)
        rcases husd : Portfolio.get_wallet (setBal p skey (s - amount)) cUSD
          with _ | u
        · simpa [Portfolio.sell_currency_rest, hsk, hlt, Wallet.withdraw,
            ha0, hsa, husd] using hp2
        · by_cases hi0 : income ≤ 0
          · simpa [Portfolio.sell_currency_rest, hsk, hlt, Wallet.withdraw,
              ha0, hsa, husd, Wallet.deposit, hi0] using hp2
          · by_cases hdep : u + income < 0
            · simpa [Portfolio.sell_currency_rest, hsk, hlt, Wallet.withdraw,
                ha0, hsa, husd, Wallet.deposit, hi0, hdep] using hp2
            · simpa [Portfolio.sell_currency_rest, hsk, hlt, Wallet.withdraw,
                ha0, hsa, husd, Wallet.deposit, hi0, hdep] using
                allNonneg_setBal hp2 (not_lt.mp hdep)

theorem buy_currency_nonneg {p : Portfolio} {t : Str} {a pr : ℚ}
    (hp : allNonneg p) : allNonneg (Portfolio.buy_currency p t a pr).2 := by
  by_cases ha : a ≤ 0
  · simpa [Portfolio.buy_currency, ha] using hp
  · by_cases hpr2 : pr ≤ 0
    · simpa [Portfolio.buy_currency, ha, hpr2] using hp
    · rcases hw : Portfolio.get_wallet p t with _ | w
      · rcases hadd : Portfolio.add_currency p t 0 with e | p1
        · simpa [Portfolio.buy_currency, ha, hpr2, hw, hadd] using hp
        · obtain ⟨hp1, -, -, -⟩ := add_currency_ok hadd
          subst hp1
          have hp1n : allNonneg (p ++ [(upper t, 0)]) :=
            allNonneg_append_single hp le_rfl
          simpa [Portfolio.buy_currency, ha, hpr2, hw, hadd] using
            buy_currency_rest_nonneg hp1n
      · simpa [Portfolio.buy_currency, ha, hpr2, hw] using
          buy_currency_rest_nonneg hp

theorem sell_currency_nonneg {p : Portfolio} {s : Str} {a pr : ℚ}
    (hp : allNonneg p) : allNonneg (Portfolio.sell_currency p s a pr).2 := by
  by_cases ha : a ≤ 0
  · simpa [Portfolio.sell_currency, ha] using hp
  · by_cases hpr2 : pr ≤ 0
    · simpa [Portfolio.sell_currency, ha, hpr2] using hp
    · rcases hw : Portfolio.get_wallet p s with _ | w
      · simpa [Portfolio.sell_currency, ha, hpr2, hw] using hp
      · rcases husd : Portfolio.get_wallet p cUSD with _ | u
        · rcases hadd : Portfolio.add_currency p cUSD 0 with e | p1
          · simpa [Portfolio.sell_currency, ha, hpr2, hw, husd, hadd] using hp
          · obtain ⟨hp1, -, -, -⟩ := add_currency_ok hadd
            subst hp1
            have hp1n : allNonneg (p ++ [(upper cUSD, 0)]) :=
              allNonneg_append_single hp le_rfl
            simpa [Portfolio.sell_currency, ha, hpr2, hw, husd, hadd] using
              sell_currency_rest_nonneg hp1n
        · simpa [Portfolio.sell_currency, ha, hpr2, hw, husd] using
            sell_currency_rest_nonneg hp

theorem applyOp_nonneg (p : Portfolio) (op : Op) (hp : allNonneg p) :
    allNonneg (applyOp p op) := by
  cases op with
  | deposit_op c a =>
    rcases hw : Portfolio.get_wallet p c with _ | b
    · simpa [applyOp, hw] using hp
    · by_cases ha : a ≤ 0
      · simpa [applyOp, hw, Wallet.deposit, ha] using hp
      · by_cases hdep : b + a < 0
        · simpa [applyOp, hw, Wallet.deposit, ha, hdep] using hp
        · simpa [applyOp, hw, Wallet.deposit, ha, hdep] using
            allNonneg_setBal hp (not_lt.mp hdep)
  | withdraw_op c a =>
    rcases hw : Portfolio.get_wallet p c with _ | b
    · simpa [applyOp, hw] using hp
    · have hb : 0 ≤ b :=
        lookup_nonneg hp (by simpa [Portfolio.get_wallet] using hw)
      by_cases ha : a ≤ 0
      · simpa [applyOp, hw, Wallet.withdraw, ha] using hp
      · by_cases hab : b < a
        · simpa [applyOp, hw, Wallet.withdraw, ha, hab] using
            allNonneg_setBal hp hb
        · have hba : ¬ (b - a < 0) := by
            have := not_lt.mp hab
            linarith
          simpa [applyOp, hw, Wallet.withdraw, ha, hab, hba] using
            allNonneg_setBal hp (not_lt.mp hba)
  | buy_op t a pr => simpa [applyOp] using buy_currency_nonneg hp
  | sell_op s a pr => simpa [applyOp] using sell_currency_nonneg hp
  | add_op c i =>
    rcases hadd : Portfolio.add_currency p c i with e | p1
    · simpa [applyOp, hadd] using hp
    · obtain ⟨hp1, -, hi, -⟩ := add_currency_ok hadd
      subst hp1
      simpa [applyOp, hadd] using allNonneg_append_single hp hi

/-- C6: starting from a portfolio whose wallet balances are all
non-negative, any sequence of the public operations deposit, withdraw,
buy_currency, sell_currency and add_currency — succeeding or failing —
leaves every wallet balance non-negative. -/
theorem balances_nonneg_invariant (p : Portfolio) (ops : List Op)
    (hp : allNonneg p) : allNonneg (ops.foldl applyOp p) := by
  induction ops generalizing p with
  | nil => simpa using hp
  | cons op rest ih => exact ih (applyOp p op) (applyOp_nonneg p op hp)

/-- C6 witness: a concrete run mixing all five operations, including
failing ones, keeps all balances non-negative. -/
theorem balances_nonneg_invariant_witness :
    allNonneg (List.foldl applyOp [(cUSD, 100)]
      [Op.buy_op cBTC 2 50, Op.sell_op cBTC 1 30, Op.deposit_op cUSD 5,
       Op.withdraw_op cUSD 1000, Op.add_op cETH 0]) :=
  balances_nonneg_invariant [(cUSD, 100)] _
    (by
      intro kv hkv
      simp at hkv
      rw [hkv]
      norm_num)
